import Mathlib

/-!
Zurich parking exporter: record extraction and metric publication.

A shallow embedding of `internal/handlers/promHandler.go`:

* `fetchData` (lines 75-135): the fetch, the extraction loop over the decoded feed
  items and the increment of the frame counter;
* `updatePrometheusData` (lines 62-73): one cycle, publishing the records as gauges.

The network and the XML decoder are the environment of the program: what they hand to one
call of `fetchData` is an input of the model (`Fetch`).  The two library routines the
extraction loop depends on, `strings.Split` and `fmt.Sscanf` with the format `%d`, are
embedded after the Go standard library.  (`fmt` stops reading after `2^30` runes; feed
descriptions are many orders of magnitude shorter and that cap is not part of the model.)
-/

set_option autoImplicit false

namespace PromHandler

/-! ## Data model -/

/-- Go strings, as the sequence of their code points.  Every string of the program comes out
of the XML decoder, which only produces valid UTF-8. -/
abbrev GoString := List Char

/-- The feed item of `internal/types/Item.go`. -/
structure Item where
  Title : GoString
  Link : GoString
  Description : GoString
  PubDate : GoString
  deriving DecidableEq

/-- Modelled from the spec: the declaration of `types.ParkingData` is not among the sources;
the spec's ParkingRecord is `{name: string, url: string, status: string, spacesLeft: integer}`
and `fetchData` builds it with the fields `Name`, `URL`, `Status`, `SpacesLeft`. -/
structure ParkingData where
  Name : GoString
  URL : GoString
  Status : GoString
  SpacesLeft : Int
  deriving DecidableEq

/-- Width of Go's `int` on the build target (`intBits = 32 << (^uint(0) >> 63)` in `fmt`). -/
inductive WordSize where
  | w32
  | w64
  deriving DecidableEq

/-- Number of bits of `int`. -/
def intBits : WordSize → Nat
  | .w32 => 32
  | .w64 => 64

/-! ## `strings.Split` -/

/-- The delimiter literal `" / "` of line 116. -/
def delim : GoString := " / ".toList

/-- The first occurrence of `sep` in a string (`strings.Index`), returned as the text before
it and the text after it; `none` when `sep` does not occur. -/
def cut (sep : GoString) : GoString → Option (GoString × GoString)
  | [] => if sep = [] then some ([], []) else none
  | c :: cs =>
    if sep.isPrefixOf (c :: cs) then some ([], (c :: cs).drop sep.length)
    else (cut sep cs).map fun p => (c :: p.1, p.2)

/-- The loop of `strings.genSplit`: cut at the first separator, continue behind it.  The
first argument bounds the number of cuts. -/
def splitLoop (sep : GoString) : Nat → GoString → List GoString
  | 0, s => [s]
  | n + 1, s =>
    match cut sep s with
    | none => [s]
    | some (a, b) => a :: splitLoop sep n b

/-- The call `strings.Split(s, sep)` for a non-empty `sep`.  A string of length `n` has at
most `n` non-overlapping separators, so the bound never stops the loop early
(`splitLoop_fuel`, `Split_some`). -/
def Split (s sep : GoString) : List GoString := splitLoop sep s.length s

/-! ## `fmt.Sscanf(str, "%d", &v)` -/

/-- The table `space` of `fmt/scan.go`. -/
def space : List (Nat × Nat) :=
  [(0x0009, 0x000d), (0x0020, 0x0020), (0x0085, 0x0085), (0x00a0, 0x00a0), (0x1680, 0x1680),
   (0x2000, 0x200a), (0x2028, 0x2029), (0x202f, 0x202f), (0x205f, 0x205f), (0x3000, 0x3000)]

/-- The predicate `isSpace` of `fmt/scan.go`. -/
def isSpace (r : Char) : Bool :=
  if 65536 ≤ r.toNat then false
  else space.any fun rng => decide (rng.1 ≤ r.toNat) && decide (r.toNat ≤ rng.2)

/-- The method `(*ss).SkipSpace` of a scan in which a newline is not a space (`Sscanf`): the
input behind the leading spaces, or `none` for the error "unexpected newline". -/
def SkipSpace : GoString → Option GoString
  | [] => some []
  | r :: rest =>
    if r = '\r' ∧ rest.head? = some '\n' then SkipSpace rest
    else if r = '\n' then none
    else if ¬ isSpace r then some (r :: rest)
    else SkipSpace rest

/-- The digits of base 10 (`decimalDigits`). -/
def decimalDigits : GoString := "0123456789".toList

/-- The signs `accept(sign)` takes. -/
def sign : GoString := "+-".toList

/-- The number a string of decimal digits denotes (the accumulation of `strconv.ParseUint`). -/
def decimalValue (ds : GoString) : Nat :=
  ds.foldl (fun n c => 10 * n + (c.toNat - '0'.toNat)) 0

/-- The call `strconv.ParseInt(tok, 10, 64)`: an optional sign, then decimal digits only;
`none` for a syntax error or a value outside `int64`. -/
def ParseInt (tok : GoString) : Option Int :=
  match tok with
  | [] => none
  | c :: cs =>
    let neg := decide (c = '-')
    let ds := if c = '+' ∨ c = '-' then cs else c :: cs
    if ds = [] ∨ ¬ (ds.all fun d => decide (d ∈ decimalDigits)) = true then none
    else
      let un := decimalValue ds
      let cutoff := 2 ^ 63
      if neg = false ∧ cutoff ≤ un then none
      else if neg = true ∧ cutoff < un then none
      else some (if neg then -(un : Int) else (un : Int))

/-- Wrap-around of a mathematical integer to `int64`. -/
def wrap64 (x : Int) : Int := (x + 2 ^ 63) % 2 ^ 64 - 2 ^ 63

/-- The method `(*ss).scanInt(verb, bitSize)` for the verb `d`: skip spaces, take an optional
sign and a run of at least one decimal digit, convert it, and check that it fits `bitSize`
bits (`x := (i << (64 - n)) >> (64 - n)` in `int64`, an error when `x != i`). -/
def scanInt (bitSize : Nat) (input : GoString) : Option Int :=
  match SkipSpace input with
  | none => none
  | some [] => none
  | some (c :: cs) =>
    let buf := if c ∈ sign then [c] else []
    let rest := if c ∈ sign then cs else c :: cs
    let digits := rest.takeWhile fun d => decide (d ∈ decimalDigits)
    if digits = [] then none
    else
      match ParseInt (buf ++ digits) with
      | none => none
      | some i =>
        let n := bitSize
        let x := wrap64 (i * 2 ^ (64 - n)) / 2 ^ (64 - n)
        if x ≠ i then none else some i

/-- The call `fmt.Sscanf(str, "%d", &v)`: the integer stored in `v`, or `none` when the scan
fails and `v` is left as it was.  `doScanf` skips spaces before the verb and `scanOne` scans
an `int` of `intBits` bits. -/
def Sscanf_d (w : WordSize) (str : GoString) : Option Int :=
  match SkipSpace str with
  | none => none
  | some rest => scanInt (intBits w) rest

/-! ## The metrics store -/

/-- The two collectors of the registry: the counter `frames_total` and the gauge vector
`free_spaces`, a gauge per value of the label `lot` (absent until first set).  A gauge holds
a float64; the ones this program stores are integers (`float64`) and kept as such. -/
structure Metrics where
  frameCounter : Nat
  freeSpaces : GoString → Option Int

/-- State of the registry at process start. -/
def Metrics.startup : Metrics := ⟨0, fun _ => none⟩

/-- The call `frameCounter.Inc()`. -/
def Metrics.Inc (m : Metrics) : Metrics := { m with frameCounter := m.frameCounter + 1 }

/-- The call `freeSpaces.With(prometheus.Labels{"lot": lot}).Set(v)`. -/
def Metrics.Set (m : Metrics) (lot : GoString) (v : Int) : Metrics :=
  { m with freeSpaces := fun l => if l = lot then some v else m.freeSpaces l }

/-- Number of low bits a magnitude loses when it is rounded to the 53-bit significand of a
float64.  The first argument bounds the number of halvings; an `int` has at most 64 bits. -/
def lostBits : Nat → Nat → Nat
  | 0, _ => 0
  | k + 1, a => if a < 2 ^ 53 then 0 else lostBits k (a / 2) + 1

/-- Go's conversion `float64(n)` of an `int`: the nearest float64, ties to even.  Its value
is an integer, by which it is represented here. -/
def float64 (n : Int) : Int :=
  let a := n.natAbs
  let e := lostBits 64 a
  let q := a / 2 ^ e
  let r := a % 2 ^ e
  let q := if 2 ^ e < 2 * r ∨ (2 * r = 2 ^ e ∧ q % 2 = 1) then q + 1 else q
  n.sign * ((q * 2 ^ e : Nat) : Int)

/-! ## `fetchData` and `updatePrometheusData` -/

/-- What the environment hands to one call of `fetchData`: whether `url.Parse`,
`http.NewRequest`, `client.Do` and `io.ReadAll` return an error, whether `xml.Unmarshal`
returns one, and the items that `xml.Unmarshal` left in `result.Channel.Items`. -/
structure Fetch where
  parseErr : Bool
  requestErr : Bool
  transportErr : Bool
  readErr : Bool
  unmarshalErr : Bool
  items : List Item

/-- The loop of lines 114-131 over the remaining items, `parkingData` being the slice built
so far. -/
def extractLoop (w : WordSize) : List Item → List ParkingData → List ParkingData
  | [], parkingData => parkingData
  | item :: items, parkingData =>
    let descParts := Split item.Description delim
    if descParts.length < 2 then extractLoop w items parkingData
    else
      let status := descParts.getD 0 []
      let spaces : Int := 0
      let spaces := match Sscanf_d w (descParts.getD 1 []) with
        | some v => v
        | none => spaces
      extractLoop w items
        (parkingData ++ [{ Name := item.Title, URL := item.Link, Status := status,
                           SpacesLeft := spaces }])

/-- The function `fetchData`: the registry after the call and the returned pointer (`none`
for `nil`).  The error of `xml.Unmarshal` is not looked at. -/
def fetchData (w : WordSize) (net : Fetch) (m : Metrics) : Metrics × Option (List ParkingData) :=
  if net.parseErr then (m, none)
  else if net.requestErr then (m, none)
  else if net.transportErr then (m, none)
  else if net.readErr then (m, none)
  else
    let parkingData := extractLoop w net.items []
    (m.Inc, some parkingData)

/-- The loop of lines 70-72. -/
def publishLoop : List ParkingData → Metrics → Metrics
  | [], m => m
  | item :: rest, m => publishLoop rest (m.Set item.Name (float64 item.SpacesLeft))

/-- The function `updatePrometheusData`: one cycle. -/
def updatePrometheusData (w : WordSize) (net : Fetch) (m : Metrics) : Metrics :=
  match fetchData w net m with
  | (m', none) => m'
  | (m', some fetchedData) => publishLoop fetchedData m'

/-- A run of cycles, one per scheduled call, oldest first. -/
def runCycles (w : WordSize) : List Fetch → Metrics → Metrics
  | [], m => m
  | net :: nets, m => runCycles w nets (updatePrometheusData w net m)

/-- The fetch went through: none of the four checked errors occurred. -/
def Fetch.succeeded (net : Fetch) : Bool :=
  !net.parseErr && !net.requestErr && !net.transportErr && !net.readErr

/-- A response whose body was read and decoded without error into `items`. -/
def Fetch.ok (items : List Item) : Fetch := ⟨false, false, false, false, false, items⟩

/-- The text between the first delimiter of a description and the second one (or the end),
given the text `tail` behind the first delimiter. -/
def secondPart (tail : GoString) : GoString :=
  match cut delim tail with
  | none => tail
  | some (p, _) => p

/-- The record a single item contributes, if any: lines 116-130 for one item, in terms of
the first delimiter of its description. -/
def extractItem (w : WordSize) (item : Item) : Option ParkingData :=
  match cut delim item.Description with
  | none => none
  | some (status, tail) =>
    some { Name := item.Title, URL := item.Link, Status := status,
           SpacesLeft := (Sscanf_d w (secondPart tail)).getD 0 }

/-- A feed item with the given title and description, its link and date left empty. -/
def sampleItem (title description : String) : Item :=
  ⟨title.toList, [], description.toList, []⟩

/-- The record of the lot `title` with the given status and count, its URL left empty. -/
def sampleRecord (title status : String) (spaces : Int) : ParkingData :=
  ⟨title.toList, [], status.toList, spaces⟩

/-! ## Lemmas on `cut` and `Split` -/

theorem delim_ne_nil : delim ≠ [] := by decide

theorem cut_eq_append {sep : GoString} :
    ∀ {s a b : GoString}, cut sep s = some (a, b) → s = a ++ sep ++ b := by
  intro s
  induction s with
  | nil =>
    intro a b h
    unfold cut at h
    split at h
    · next hs => simp at h; simp [h.1, h.2, hs]
    · simp at h
  | cons c cs ih =>
    intro a b h
    unfold cut at h
    split at h
    · next hp =>
      simp only [Option.some.injEq, Prod.mk.injEq] at h
      rw [List.isPrefixOf_iff_prefix, List.prefix_iff_eq_append] at hp
      rw [← h.1, ← h.2]
      simpa using hp.symm
    · cases hc : cut sep cs with
      | none => simp [hc] at h
      | some p =>
        obtain ⟨p1, p2⟩ := p
        simp only [hc, Option.map_some', Option.some.injEq, Prod.mk.injEq] at h
        rw [← h.1, ← h.2, ih hc]
        simp

theorem cut_length {sep s a b : GoString} (hsep : sep ≠ []) (h : cut sep s = some (a, b)) :
    b.length < s.length := by
  have := cut_eq_append h
  have hl : 0 < sep.length := List.length_pos.mpr hsep
  rw [this]
  simp only [List.length_append]
  omega

theorem cut_eq_none_iff {sep : GoString} (hsep : sep ≠ []) :
    ∀ s : GoString, cut sep s = none ↔ ¬ sep <:+: s := by
  intro s
  induction s with
  | nil => simp [cut, hsep]
  | cons c cs ih =>
    unfold cut
    rw [List.infix_cons_iff]
    by_cases hp : sep.isPrefixOf (c :: cs) = true
    · simp [hp, List.isPrefixOf_iff_prefix.mp hp]
    · have hp' : ¬ sep <+: c :: cs := fun h => hp (List.isPrefixOf_iff_prefix.mpr h)
      simp [hp, hp', ih]

theorem splitLoop_fuel {sep : GoString} (hsep : sep ≠ []) :
    ∀ (n m : Nat) (s : GoString), s.length ≤ n → s.length ≤ m →
      splitLoop sep n s = splitLoop sep m s := by
  intro n
  induction n with
  | zero =>
    intro m s hn _
    have hs : s = [] := List.length_eq_zero.mp (Nat.le_zero.mp hn)
    subst hs
    cases m <;> simp [splitLoop, cut, hsep]
  | succ n ih =>
    intro m s hn hm
    cases m with
    | zero =>
      have hs : s = [] := List.length_eq_zero.mp (Nat.le_zero.mp hm)
      subst hs
      simp [splitLoop, cut, hsep]
    | succ m =>
      simp only [splitLoop]
      cases hc : cut sep s with
      | none => rfl
      | some p =>
        obtain ⟨a, b⟩ := p
        have hlt := cut_length hsep hc
        simp only
        rw [ih m b (by omega) (by omega)]

theorem Split_none {sep s : GoString} (h : cut sep s = none) :
    Split s sep = [s] := by
  unfold Split
  cases hl : s.length with
  | zero => simp [splitLoop]
  | succ n => simp [splitLoop, h]

theorem Split_some {sep s a b : GoString} (hsep : sep ≠ []) (h : cut sep s = some (a, b)) :
    Split s sep = a :: Split b sep := by
  unfold Split
  have hlt := cut_length hsep h
  cases hl : s.length with
  | zero => omega
  | succ n =>
    simp only [splitLoop, h]
    rw [splitLoop_fuel hsep n b.length b (by omega) (le_refl _)]


/-! ## Lemmas on `Sscanf_d` -/

theorem digit_cases {c : Char} (h : c ∈ decimalDigits) :
    c = '0' ∨ c = '1' ∨ c = '2' ∨ c = '3' ∨ c = '4' ∨ c = '5' ∨ c = '6' ∨ c = '7' ∨
      c = '8' ∨ c = '9' := by
  simpa [decimalDigits] using h

theorem digit_props {c : Char} (h : c ∈ decimalDigits) :
    c ≠ '\r' ∧ c ≠ '\n' ∧ isSpace c = false ∧ c ∉ sign ∧ c ≠ '+' ∧ c ≠ '-' ∧ c ≠ ' ' := by
  rcases digit_cases h with h | h | h | h | h | h | h | h | h | h <;> subst h <;> decide

theorem SkipSpace_digit {c : Char} (h : c ∈ decimalDigits) (cs : GoString) :
    SkipSpace (c :: cs) = some (c :: cs) := by
  obtain ⟨h1, h2, h3, _⟩ := digit_props h
  simp [SkipSpace, h1, h2, h3]

theorem takeWhile_run {p : Char → Bool} :
    ∀ (ds rest : GoString), (∀ c ∈ ds, p c = true) →
      (∀ c, rest.head? = some c → p c = false) → (ds ++ rest).takeWhile p = ds := by
  intro ds
  induction ds with
  | nil =>
    intro rest _ hr
    cases rest with
    | nil => rfl
    | cons r rs => simp [List.takeWhile, hr r (by simp)]
  | cons d ds ih =>
    intro rest hd hr
    have h1 : p d = true := hd d (by simp)
    simp [List.takeWhile, h1, ih rest (fun c hc => hd c (by simp [hc])) hr]

theorem fits_of_lt (w : WordSize) (n : Nat) (h : n < 2 ^ (intBits w - 1)) :
    wrap64 ((n : Int) * 2 ^ (64 - intBits w)) / 2 ^ (64 - intBits w) = (n : Int) := by
  cases w <;> simp only [intBits, wrap64] at * <;> norm_num at * <;> omega

theorem lt_cutoff_of_fits (w : WordSize) (n : Nat) (h : n < 2 ^ (intBits w - 1)) :
    n < 9223372036854775808 := by
  cases w <;> simp only [intBits] at h <;> norm_num at h ⊢ <;> omega

/-- A run of decimal digits whose value fits `int`, followed by nothing or by a character
that is no digit, scans to its value. -/
theorem Sscanf_d_run (w : WordSize) (ds rest : GoString) (hne : ds ≠ [])
    (hd : ∀ c ∈ ds, c ∈ decimalDigits)
    (hr : ∀ c, rest.head? = some c → c ∉ decimalDigits)
    (hfit : decimalValue ds < 2 ^ (intBits w - 1)) :
    Sscanf_d w (ds ++ rest) = some (decimalValue ds : Int) := by
  cases ds with
  | nil => exact absurd rfl hne
  | cons d ds =>
    have hdig : d ∈ decimalDigits := hd d (by simp)
    obtain ⟨_, _, _, hs, hplus, hminus, _⟩ := digit_props hdig
    have htw : ((d :: ds) ++ rest).takeWhile (fun c => decide (c ∈ decimalDigits)) = d :: ds :=
      takeWhile_run (d :: ds) rest (fun c hc => by simpa using hd c hc)
        (fun c hc => by simpa using hr c hc)
    have hall : ((d :: ds).all fun c => decide (c ∈ decimalDigits)) = true := by
      rw [List.all_eq_true]
      intro c hc
      simpa using hd c hc
    have hlt := lt_cutoff_of_fits w _ hfit
    have hparse : ParseInt (d :: ds) = some (decimalValue (d :: ds) : Int) := by
      simp only [ParseInt, hplus, hminus, or_self, if_false, hall, decide_False]
      simp [Nat.not_le.mpr hlt]
    have hskip : SkipSpace (d :: ds ++ rest) = some (d :: ds ++ rest) := SkipSpace_digit hdig _
    rw [List.cons_append] at htw hskip
    simp only [Sscanf_d, List.cons_append, hskip, scanInt, hs, ↓reduceIte, htw, List.nil_append,
      hparse, fits_of_lt w _ hfit]
    simp


theorem isSpace_cr : isSpace '\r' = true := by decide

theorem SkipSpace_eq_dropWhile :
    ∀ {s r : GoString}, SkipSpace s = some r → r = s.dropWhile isSpace := by
  intro s
  induction s with
  | nil => intro r h; simp [SkipSpace] at h; simp [h]
  | cons c cs ih =>
    intro r h
    unfold SkipSpace at h
    rw [List.dropWhile_cons]
    split_ifs at h with h1 h2 h3
    · rw [ih h, h1.1, isSpace_cr]; rfl
    · rw [ih h]; simp [h3]
    · cases h; simp [h3]

theorem SkipSpace_idem :
    ∀ {s r : GoString}, SkipSpace s = some r → SkipSpace r = some r := by
  intro s
  induction s with
  | nil =>
    intro r h
    cases r with
    | nil => rfl
    | cons x xs => simp [SkipSpace] at h
  | cons c cs ih =>
    intro r h
    have h0 := h
    unfold SkipSpace at h
    split_ifs at h with h1 h2 h3
    · exact ih h
    · exact ih h
    · cases h; exact h0

theorem ParseInt_neg {tok : GoString} {v : Int} (h : ParseInt tok = some v) (hv : v < 0) :
    tok.head? = some '-' := by
  cases tok with
  | nil => simp [ParseInt] at h
  | cons c cs =>
    by_cases hc : c = '-'
    · simp [hc]
    · exfalso
      simp only [ParseInt, hc, decide_False, Bool.false_eq_true, if_false, false_and] at h
      split_ifs at h <;> simp only [Option.some.injEq, reduceCtorEq] at h <;> omega

theorem scanInt_neg {n : Nat} {s : GoString} {v : Int} (h : scanInt n s = some v) (hv : v < 0) :
    ∃ t, SkipSpace s = some ('-' :: t) := by
  unfold scanInt at h
  split at h
  · exact absurd h (by simp)
  · exact absurd h (by simp)
  · next c cs hsk =>
    by_cases hs : c ∈ sign
    · simp only [hs, if_true] at h
      split_ifs at h with h1
      cases hp : ParseInt ([c] ++ List.takeWhile (fun d => decide (d ∈ decimalDigits)) cs) with
      | none => rw [hp] at h; exact absurd h (by simp)
      | some i =>
        rw [hp] at h
        simp only at h
        split_ifs at h with h2
        cases h
        have hh := ParseInt_neg hp hv
        simp only [List.singleton_append, List.head?_cons, Option.some.injEq] at hh
        exact ⟨cs, by rw [hsk, hh]⟩
    · exfalso
      simp only [hs, if_false, List.nil_append] at h
      split_ifs at h with h1
      cases hp : ParseInt (List.takeWhile (fun d => decide (d ∈ decimalDigits)) (c :: cs)) with
      | none => rw [hp] at h; exact absurd h (by simp)
      | some i =>
        rw [hp] at h
        simp only at h
        split_ifs at h with h2
        cases h
        have hh := ParseInt_neg hp hv
        rw [List.takeWhile_cons] at hh
        split_ifs at hh with h3
        · simp only [List.head?_cons, Option.some.injEq] at hh
          exact absurd (hh ▸ hs) (by decide)
        · simp at hh

/-- A scan only stores a negative number when the text, behind its leading spaces, starts
with a minus sign. -/
theorem Sscanf_d_neg {w : WordSize} {s : GoString} {v : Int} (h : Sscanf_d w s = some v)
    (hv : v < 0) : (s.dropWhile isSpace).head? = some '-' := by
  unfold Sscanf_d at h
  split at h
  · exact absurd h (by simp)
  · next r hsk =>
    obtain ⟨t, ht⟩ := scanInt_neg h hv
    rw [SkipSpace_idem hsk] at ht
    simp only [Option.some.injEq] at ht
    rw [← SkipSpace_eq_dropWhile hsk, ht]
    rfl


/-! ## Lemmas on the extraction loop -/

theorem Split_two {s a b : GoString} (h : cut delim s = some (a, b)) :
    ∃ rest, Split s delim = a :: secondPart b :: rest := by
  rw [Split_some delim_ne_nil h]
  unfold secondPart
  cases hb : cut delim b with
  | none => exact ⟨[], by rw [Split_none hb]⟩
  | some p =>
    obtain ⟨p, q⟩ := p
    exact ⟨Split q delim, by rw [Split_some delim_ne_nil hb]⟩

theorem extractItem_none {w : WordSize} {item : Item} (h : cut delim item.Description = none) :
    extractItem w item = none := by
  simp [extractItem, h]

theorem extractItem_some {w : WordSize} {item : Item} {a b : GoString}
    (h : cut delim item.Description = some (a, b)) :
    extractItem w item =
      some { Name := item.Title, URL := item.Link, Status := a,
             SpacesLeft := (Sscanf_d w (secondPart b)).getD 0 } := by
  simp [extractItem, h, secondPart]

theorem extractLoop_eq (w : WordSize) :
    ∀ (items : List Item) (acc : List ParkingData),
      extractLoop w items acc = acc ++ items.filterMap (extractItem w) := by
  intro items
  induction items with
  | nil => intro acc; simp [extractLoop]
  | cons item items ih =>
    intro acc
    unfold extractLoop
    cases hc : cut delim item.Description with
    | none =>
      simp [Split_none hc, ih, extractItem_none hc]
    | some p =>
      obtain ⟨a, b⟩ := p
      obtain ⟨rest, hs⟩ := Split_two hc
      rw [List.filterMap_cons, extractItem_some hc]
      simp only [hs, List.length_cons, List.getD_cons_zero, List.getD_cons_succ]
      rw [if_neg (by omega), ih]
      cases hsc : Sscanf_d w (secondPart b) <;> simp

/-! ## Lemmas on the publication loop -/

theorem float64_of_small (n : Int) (h : n.natAbs < 2 ^ 53) : float64 n = n := by
  have hl : lostBits 64 n.natAbs = 0 := by
    norm_num at h
    simp [lostBits, h]
  simp only [float64, hl, pow_zero, Nat.div_one, Nat.mod_one, mul_one]
  simp [Int.sign_mul_abs]

theorem publishLoop_frameCounter :
    ∀ (R : List ParkingData) (m : Metrics), (publishLoop R m).frameCounter = m.frameCounter := by
  intro R
  induction R with
  | nil => intro m; rfl
  | cons r R ih => intro m; simp [publishLoop, ih, Metrics.Set]

theorem publishLoop_freeSpaces :
    ∀ (R : List ParkingData) (m : Metrics),
      (publishLoop R m).freeSpaces =
        R.foldl (fun (g : GoString → Option Int) (r : ParkingData) =>
          Function.update g r.Name (some (float64 r.SpacesLeft))) m.freeSpaces := by
  intro R
  induction R with
  | nil => intro m; rfl
  | cons r R ih =>
    intro m
    simp only [publishLoop, ih, List.foldl_cons]
    congr 1
    funext l
    simp [Metrics.Set, Function.update_apply]

theorem publishLoop_other :
    ∀ (R : List ParkingData) (m : Metrics) (lot : GoString),
      (∀ r ∈ R, r.Name ≠ lot) → (publishLoop R m).freeSpaces lot = m.freeSpaces lot := by
  intro R
  induction R with
  | nil => intro m lot _; rfl
  | cons r R ih =>
    intro m lot h
    have h1 : lot ≠ r.Name := fun e => h r (by simp) e.symm
    simp only [publishLoop]
    rw [ih _ lot (fun x hx => h x (by simp [hx]))]
    simp [Metrics.Set, h1]

theorem publishLoop_last (pre post : List ParkingData) (r : ParkingData) (m : Metrics)
    (h : ∀ x ∈ post, x.Name ≠ r.Name) :
    (publishLoop (pre ++ r :: post) m).freeSpaces r.Name = some (float64 r.SpacesLeft) := by
  induction pre generalizing m with
  | nil =>
    simp only [List.nil_append, publishLoop]
    rw [publishLoop_other post _ r.Name h]
    simp [Metrics.Set]
  | cons p pre ih =>
    simp only [List.cons_append, publishLoop]
    exact ih _

theorem updatePrometheusData_succeeded (w : WordSize) (net : Fetch) (m : Metrics)
    (h : net.succeeded = true) :
    updatePrometheusData w net m = publishLoop (extractLoop w net.items []) m.Inc := by
  simp only [Fetch.succeeded, Bool.and_eq_true, Bool.not_eq_true'] at h
  obtain ⟨⟨⟨h1, h2⟩, h3⟩, h4⟩ := h
  simp [updatePrometheusData, fetchData, h1, h2, h3, h4]

theorem updatePrometheusData_failed (w : WordSize) (net : Fetch) (m : Metrics)
    (h : net.succeeded = false) : updatePrometheusData w net m = m := by
  simp only [updatePrometheusData, fetchData]
  cases h1 : net.parseErr <;> cases h2 : net.requestErr <;> cases h3 : net.transportErr <;>
    cases h4 : net.readErr <;> simp_all [Fetch.succeeded]


/-! ## Where the first delimiter is -/

theorem delim_eq : delim = [' ', '/', ' '] := by decide

theorem cut_delim_clean :
    ∀ (S C : GoString), ¬ delim <:+: S → ¬ [' ', '/'] <:+ S →
      cut delim (S ++ delim ++ C) = some (S, C) := by
  intro S
  induction S with
  | nil => intro C _ _; simp [cut, delim_eq]
  | cons c S ih =>
    intro C h1 h2
    have hnp : ¬ delim.isPrefixOf (c :: (S ++ delim ++ C)) = true := by
      intro hp
      rcases S with _ | ⟨c2, _ | ⟨c3, S⟩⟩
      · simp [delim_eq] at hp
      · simp [delim_eq] at hp
        exact h2 (by rw [hp.1, hp.2])
      · simp [delim_eq] at hp
        obtain ⟨e1, e2, e3⟩ := hp
        exact h1 ⟨[], S, by simp [delim_eq, ← e1, ← e2, ← e3]⟩
    have hrec := ih C (fun h => h1 (List.infix_cons h))
      (fun h => h2 (h.trans (List.suffix_cons c S)))
    show cut delim (c :: (S ++ delim ++ C)) = some (c :: S, C)
    rw [cut, if_neg hnp, hrec]
    rfl

theorem cut_delim_first :
    ∀ (a b : GoString), (∀ i, i < a.length → ¬ delim <+: (a ++ delim ++ b).drop i) →
      cut delim (a ++ delim ++ b) = some (a, b) := by
  intro a
  induction a with
  | nil => intro b _; simp [cut, delim_eq]
  | cons c a ih =>
    intro b h
    have hnp : ¬ delim.isPrefixOf (c :: (a ++ delim ++ b)) = true := by
      intro hp
      exact h 0 (by simp) (by simpa using List.isPrefixOf_iff_prefix.mp hp)
    have hrec := ih b (fun i hi => by
      have := h (i + 1) (by simpa using hi)
      simpa using this)
    show cut delim (c :: (a ++ delim ++ b)) = some (c :: a, b)
    rw [cut, if_neg hnp, hrec]
    rfl

theorem secondPart_digit {d : Char} (h : d ∈ decimalDigits) (t : GoString) :
    secondPart (d :: t) = d :: secondPart t := by
  have hne : d ≠ ' ' := (digit_props h).2.2.2.2.2.2
  have hnp : ¬ delim.isPrefixOf (d :: t) = true := by
    intro hp
    simp [delim_eq] at hp
    exact hne hp.1.symm
  unfold secondPart
  rw [cut]
  simp only [hnp, if_false]
  cases cut delim t with
  | none => rfl
  | some p => rfl

theorem secondPart_run :
    ∀ (ds rest : GoString), (∀ c ∈ ds, c ∈ decimalDigits) →
      secondPart (ds ++ rest) = ds ++ secondPart rest := by
  intro ds
  induction ds with
  | nil => intro rest _; rfl
  | cons d ds ih =>
    intro rest h
    rw [List.cons_append, secondPart_digit (h d (by simp)),
      ih rest (fun c hc => h c (by simp [hc]))]
    rfl

theorem secondPart_head {t : GoString} {c : Char} (h : (secondPart t).head? = some c) :
    t.head? = some c := by
  unfold secondPart at h
  cases hc : cut delim t with
  | none => simpa [hc] using h
  | some p =>
    obtain ⟨p, q⟩ := p
    simp only [hc] at h
    rw [cut_eq_append hc]
    cases p with
    | nil => simp at h
    | cons x xs => simpa using h

theorem secondPart_first {p q : GoString}
    (h : ∀ i, i < p.length → ¬ delim <+: (p ++ delim ++ q).drop i) :
    secondPart (p ++ delim ++ q) = p := by
  unfold secondPart
  rw [cut_delim_first p q h]

/-! ## Lemmas on `fetchData` -/

theorem fetchData_succeeded (w : WordSize) (net : Fetch) (m : Metrics)
    (h : net.succeeded = true) :
    fetchData w net m = (m.Inc, some (extractLoop w net.items [])) := by
  simp only [Fetch.succeeded, Bool.and_eq_true, Bool.not_eq_true'] at h
  obtain ⟨⟨⟨h1, h2⟩, h3⟩, h4⟩ := h
  simp [fetchData, h1, h2, h3, h4]

theorem extractLoop_nil_eq (w : WordSize) (items : List Item) :
    extractLoop w items [] = items.filterMap (extractItem w) := by
  rw [extractLoop_eq]; rfl

theorem extractLoop_emit (w : WordSize) (xs ys : List Item) (item : Item) (r : ParkingData)
    (h : extractItem w item = some r) :
    extractLoop w (xs ++ item :: ys) [] =
      extractLoop w xs [] ++ r :: extractLoop w ys [] := by
  simp [extractLoop_nil_eq, List.filterMap_append, List.filterMap_cons, h]


theorem fetchData_some (w : WordSize) (net : Fetch) (m : Metrics) (R : List ParkingData)
    (h : (fetchData w net m).2 = some R) :
    net.succeeded = true ∧ R = extractLoop w net.items [] := by
  cases hs : net.succeeded with
  | true =>
    rw [fetchData_succeeded w net m hs] at h
    simp only [Option.some.injEq] at h
    exact ⟨rfl, h.symm⟩
  | false =>
    exfalso
    simp only [fetchData] at h
    cases h1 : net.parseErr <;> cases h2 : net.requestErr <;> cases h3 : net.transportErr <;>
      cases h4 : net.readErr <;> simp_all [Fetch.succeeded]

theorem updatePrometheusData_some (w : WordSize) (net : Fetch) (m : Metrics)
    (R : List ParkingData) (h : (fetchData w net m).2 = some R) :
    updatePrometheusData w net m = publishLoop R m.Inc := by
  obtain ⟨hs, hR⟩ := fetchData_some w net m R h
  rw [updatePrometheusData_succeeded w net m hs, hR]

theorem runCycles_frameCounter (w : WordSize) :
    ∀ (nets : List Fetch) (m : Metrics), (∀ net ∈ nets, net.succeeded = true) →
      (runCycles w nets m).frameCounter = m.frameCounter + nets.length := by
  intro nets
  induction nets with
  | nil => intro m _; rfl
  | cons net nets ih =>
    intro m h
    simp only [runCycles]
    rw [ih _ (fun n hn => h n (by simp [hn])),
      updatePrometheusData_succeeded w net m (h net (by simp)), publishLoop_frameCounter]
    simp only [Metrics.Inc, List.length_cons]
    omega

theorem filterMap_extractItem_forall₂ (w : WordSize) :
    ∀ items : List Item,
      List.Forall₂ (fun (it : Item) (r : ParkingData) => r.Name = it.Title ∧ r.URL = it.Link)
        (items.filter fun it => decide (delim <:+: it.Description))
        (items.filterMap (extractItem w)) := by
  intro items
  induction items with
  | nil => exact List.Forall₂.nil
  | cons item items ih =>
    cases hc : cut delim item.Description with
    | none =>
      have hn := (cut_eq_none_iff delim_ne_nil item.Description).mp hc
      rw [List.filterMap_cons, extractItem_none hc, List.filter_cons]
      simpa [hn] using ih
    | some p =>
      obtain ⟨a, b⟩ := p
      have hi : delim <:+: item.Description := by
        by_contra hn
        rw [(cut_eq_none_iff delim_ne_nil item.Description).mpr hn] at hc
        exact absurd hc (by simp)
      rw [List.filterMap_cons, extractItem_some hc, List.filter_cons]
      simp only [hi, decide_True, if_true]
      exact List.Forall₂.cons ⟨rfl, rfl⟩ ih

theorem filterMap_extractItem_names (w : WordSize) :
    ∀ items : List Item, (∀ it ∈ items, delim <:+: it.Description) →
      (items.filterMap (extractItem w)).map (fun r => r.Name) =
        items.map (fun it => it.Title) := by
  intro items
  induction items with
  | nil => intro _; rfl
  | cons item items ih =>
    intro h
    have hi := h item (by simp)
    cases hc : cut delim item.Description with
    | none => exact absurd hi ((cut_eq_none_iff delim_ne_nil item.Description).mp hc)
    | some p =>
      obtain ⟨a, b⟩ := p
      rw [List.filterMap_cons, extractItem_some hc]
      simp only [List.map_cons]
      rw [ih (fun it hit => h it (by simp [hit]))]


theorem filterMap_extractItem_rel (w : WordSize) :
    ∀ items : List Item,
      List.Forall₂ (fun (it : Item) (r : ParkingData) => extractItem w it = some r)
        (items.filter fun it => decide (delim <:+: it.Description))
        (items.filterMap (extractItem w)) := by
  intro items
  induction items with
  | nil => exact List.Forall₂.nil
  | cons item items ih =>
    cases hc : cut delim item.Description with
    | none =>
      have hn := (cut_eq_none_iff delim_ne_nil item.Description).mp hc
      rw [List.filterMap_cons, extractItem_none hc, List.filter_cons]
      simpa [hn] using ih
    | some p =>
      obtain ⟨a, b⟩ := p
      have hi : delim <:+: item.Description := by
        by_contra hn
        rw [(cut_eq_none_iff delim_ne_nil item.Description).mpr hn] at hc
        exact absurd hc (by simp)
      rw [List.filterMap_cons, extractItem_some hc, List.filter_cons]
      simp only [hi, decide_True, if_true]
      exact List.Forall₂.cons (extractItem_some hc) ih

theorem extractItem_nonneg {w : WordSize} {it : Item} {r : ParkingData}
    (h : extractItem w it = some r)
    (hminus : (((Split it.Description delim).getD 1 []).dropWhile isSpace).head? ≠ some '-') :
    r.Name = it.Title ∧ 0 ≤ r.SpacesLeft := by
  cases hc : cut delim it.Description with
  | none => rw [extractItem_none hc] at h; exact absurd h (by simp)
  | some p =>
    obtain ⟨a, b⟩ := p
    rw [extractItem_some hc] at h
    simp only [Option.some.injEq] at h
    obtain ⟨rest, hsplit⟩ := Split_two hc
    rw [hsplit] at hminus
    simp only [List.getD_cons_zero, List.getD_cons_succ] at hminus
    rw [← h]
    refine ⟨rfl, ?_⟩
    show 0 ≤ (Sscanf_d w (secondPart b)).getD 0
    cases hsc : Sscanf_d w (secondPart b) with
    | none => simp
    | some v =>
      simp only [Option.getD_some]
      by_contra hneg
      exact hminus (Sscanf_d_neg hsc (by omega))

theorem extractItem_name {w : WordSize} {it : Item} {r : ParkingData}
    (h : extractItem w it = some r) : r.Name = it.Title := by
  cases hc : cut delim it.Description with
  | none => rw [extractItem_none hc] at h; exact absurd h (by simp)
  | some p =>
    obtain ⟨a, b⟩ := p
    rw [extractItem_some hc] at h
    simp only [Option.some.injEq] at h
    rw [← h]

/-! ## Record extraction -/

/-- C1, as the claim states it, fails: the description `"Open / / 42"` is `S ++ " / " ++ C`
with `S = "Open /"`, which does not contain `" / "`, and `C = "42"`; its first delimiter
starts inside `S ++ " / "` one character before the end of `S`, so the record has the status
`"Open"` and the count `0`, not the status `"Open /"` and the count `42`. -/
theorem extract_status_ending_in_slash :
    "Open / / 42".toList = "Open /".toList ++ delim ++ "42".toList ∧
    ¬ delim <:+: "Open /".toList ∧
    ("42".toList.all fun c => decide (c ∈ decimalDigits)) = true ∧
    decimalValue "42".toList = 42 ∧
    (fetchData .w64 (Fetch.ok [sampleItem "P1" "Open / / 42"]) Metrics.startup).2 =
      some [sampleRecord "P1" "Open" 0] ∧
    (fetchData .w64 (Fetch.ok [sampleItem "P1" "Open / / 42"]) Metrics.startup).2 ≠
      some [sampleRecord "P1" "Open /" 42] := by
  decide

/-- C1, amended: for a feed item whose description is `S ++ " / " ++ C`, where `S` neither
contains `" / "` nor ends in `" /"`, and `C` is a non-empty run `ds` of decimal digits whose
value fits `int`, followed by nothing or by text that does not start with a digit,
`fetchData` emits exactly one record for the item, between the records of the items before
it and those of the items behind it, with name = title, url = link, status = `S` and
spacesLeft = the value of `ds`. -/
theorem extract_wellFormed_item (w : WordSize) (net : Fetch) (m : Metrics)
    (xs ys : List Item) (item : Item) (S ds rest : GoString)
    (hok : net.succeeded = true) (hitems : net.items = xs ++ item :: ys)
    (hdesc : item.Description = S ++ delim ++ (ds ++ rest))
    (hS : ¬ delim <:+: S) (hend : ¬ " /".toList <:+ S)
    (hne : ds ≠ []) (hds : ∀ c ∈ ds, c ∈ decimalDigits)
    (hrest : ∀ c, rest.head? = some c → c ∉ decimalDigits)
    (hfit : decimalValue ds < 2 ^ (intBits w - 1)) :
    (fetchData w net m).2 =
      some (extractLoop w xs [] ++
        { Name := item.Title, URL := item.Link, Status := S,
          SpacesLeft := (decimalValue ds : Int) } :: extractLoop w ys []) := by
  have hcut : cut delim item.Description = some (S, ds ++ rest) := by
    rw [hdesc]; exact cut_delim_clean S (ds ++ rest) hS hend
  have hscan : Sscanf_d w (secondPart (ds ++ rest)) = some (decimalValue ds : Int) := by
    rw [secondPart_run ds rest hds]
    exact Sscanf_d_run w ds (secondPart rest) hne hds
      (fun c hc => hrest c (secondPart_head hc)) hfit
  have hrec := extractItem_some (w := w) hcut
  rw [hscan] at hrec
  rw [fetchData_succeeded w net m hok, hitems, extractLoop_emit w xs ys item _ hrec]
  rfl

/-- Witness of C1: the description `"Open / 42"` gives the status `"Open"` and the count 42. -/
theorem extract_wellFormed_item_witness :
    (fetchData .w64 (Fetch.ok [sampleItem "P1" "Open / 42"]) Metrics.startup).2 =
      some [sampleRecord "P1" "Open" 42] :=
  extract_wellFormed_item .w64 (Fetch.ok [sampleItem "P1" "Open / 42"]) Metrics.startup
    [] [] (sampleItem "P1" "Open / 42") "Open".toList "42".toList [] rfl rfl rfl
    (by decide) (by decide) (by decide) (by decide) (by simp) (by decide)

/-- C2: the records `fetchData` builds correspond one to one, in feed order, to the items
whose description contains `" / "`, each with the title of its item as name; an item without
the delimiter contributes nothing, and the feed without it yields the same records; when all
`N` items contain the delimiter there are `N` records, named by the `N` titles in order. -/
theorem extract_one_record_per_delimited_item (w : WordSize) (net : Fetch) (m : Metrics)
    (R : List ParkingData) (hR : (fetchData w net m).2 = some R) :
    List.Forall₂ (fun (it : Item) (r : ParkingData) => r.Name = it.Title ∧ r.URL = it.Link)
        (net.items.filter fun it => decide (delim <:+: it.Description)) R ∧
    (∀ xs bad ys, net.items = xs ++ bad :: ys → ¬ delim <:+: bad.Description →
        (fetchData w { net with items := xs ++ ys } m).2 = some R) ∧
    ((∀ it ∈ net.items, delim <:+: it.Description) →
        R.length = net.items.length ∧
        R.map (fun r => r.Name) = net.items.map (fun it => it.Title)) := by
  obtain ⟨hs, hRe⟩ := fetchData_some w net m R hR
  rw [extractLoop_nil_eq] at hRe
  refine ⟨?_, ?_, ?_⟩
  · rw [hRe]; exact filterMap_extractItem_forall₂ w net.items
  · intro xs bad ys hitems hbad
    have hnone : extractItem w bad = none :=
      extractItem_none ((cut_eq_none_iff delim_ne_nil bad.Description).mpr hbad)
    have hs' : ({ net with items := xs ++ ys } : Fetch).succeeded = true := hs
    rw [fetchData_succeeded w _ m hs', hRe, hitems]
    simp [extractLoop_nil_eq, List.filterMap_append, List.filterMap_cons, hnone]
  · intro hall
    have hnames := filterMap_extractItem_names w net.items hall
    rw [← hRe] at hnames
    refine ⟨?_, hnames⟩
    have := congrArg List.length hnames
    simpa using this

/-- Witness of C2: of the three items only the two with a delimiter give a record, in feed
order; the item with the description `"Open"` is skipped. -/
theorem extract_one_record_per_delimited_item_witness :
    List.Forall₂ (fun (it : Item) (r : ParkingData) => r.Name = it.Title ∧ r.URL = it.Link)
      [sampleItem "P1" "Open / 42", sampleItem "P3" "Closed / 0"]
      [sampleRecord "P1" "Open" 42, sampleRecord "P3" "Closed" 0] ∧
    (fetchData .w64 (Fetch.ok [sampleItem "P1" "Open / 42", sampleItem "P3" "Closed / 0"])
      Metrics.startup).2 = some [sampleRecord "P1" "Open" 42, sampleRecord "P3" "Closed" 0] :=
  have h := extract_one_record_per_delimited_item .w64
    (Fetch.ok [sampleItem "P1" "Open / 42", sampleItem "P2" "Open", sampleItem "P3" "Closed / 0"])
    Metrics.startup [sampleRecord "P1" "Open" 42, sampleRecord "P3" "Closed" 0] (by decide)
  ⟨h.1, h.2.1 [sampleItem "P1" "Open / 42"] (sampleItem "P2" "Open")
    [sampleItem "P3" "Closed / 0"] rfl (by decide)⟩


/-- C3: for a feed item whose description contains `" / "` and whose second part `Sscanf`
cannot scan as an integer, `fetchData` still emits the item's record, with the first part as
status and spacesLeft = 0. -/
theorem extract_unparsable_count (w : WordSize) (net : Fetch) (m : Metrics)
    (xs ys : List Item) (item : Item)
    (hok : net.succeeded = true) (hitems : net.items = xs ++ item :: ys)
    (hdelim : delim <:+: item.Description)
    (hscan : Sscanf_d w ((Split item.Description delim).getD 1 []) = none) :
    (fetchData w net m).2 =
      some (extractLoop w xs [] ++
        { Name := item.Title, URL := item.Link,
          Status := (Split item.Description delim).getD 0 [],
          SpacesLeft := 0 } :: extractLoop w ys []) := by
  cases hc : cut delim item.Description with
  | none => exact absurd hdelim ((cut_eq_none_iff delim_ne_nil item.Description).mp hc)
  | some p =>
    obtain ⟨a, b⟩ := p
    obtain ⟨rest, hsplit⟩ := Split_two hc
    rw [hsplit] at hscan ⊢
    simp only [List.getD_cons_zero, List.getD_cons_succ] at hscan ⊢
    have hrec := extractItem_some (w := w) hc
    rw [hscan] at hrec
    rw [fetchData_succeeded w net m hok, hitems, extractLoop_emit w xs ys item _ hrec]
    rfl

/-- Witness of C3: `"Open / abc"`, an empty second part, and a digit string too large for
`int` each give a record with the status `"Open"` and the count 0. -/
theorem extract_unparsable_count_witness :
    (Sscanf_d .w64 "abc".toList = none ∧
      (fetchData .w64 (Fetch.ok [sampleItem "P1" "Open / abc"]) Metrics.startup).2 =
        some [sampleRecord "P1" "Open" 0]) ∧
    (Sscanf_d .w64 [] = none ∧
      (fetchData .w64 (Fetch.ok [sampleItem "P1" "Open / "]) Metrics.startup).2 =
        some [sampleRecord "P1" "Open" 0]) ∧
    (Sscanf_d .w64 "9223372036854775808".toList = none ∧
      (fetchData .w64 (Fetch.ok [sampleItem "P1" "Open / 9223372036854775808"])
        Metrics.startup).2 = some [sampleRecord "P1" "Open" 0]) :=
  ⟨⟨by decide,
     extract_unparsable_count .w64 (Fetch.ok [sampleItem "P1" "Open / abc"]) Metrics.startup
       [] [] (sampleItem "P1" "Open / abc") rfl rfl (by decide) (by decide)⟩,
   ⟨by decide,
     extract_unparsable_count .w64 (Fetch.ok [sampleItem "P1" "Open / "]) Metrics.startup
       [] [] (sampleItem "P1" "Open / ") rfl rfl (by decide) (by decide)⟩,
   ⟨by decide,
     extract_unparsable_count .w64 (Fetch.ok [sampleItem "P1" "Open / 9223372036854775808"])
       Metrics.startup [] [] (sampleItem "P1" "Open / 9223372036854775808") rfl rfl
       (by decide) (by decide)⟩⟩

/-- C4, as the claim states it, fails: `%d` takes a sign, so the description `"Open / -5"`
gives a record with spacesLeft = -5. -/
theorem extract_negative_count :
    (fetchData .w64 (Fetch.ok [sampleItem "P1" "Open / -5"]) Metrics.startup).2 =
      some [sampleRecord "P1" "Open" (-5)] ∧
    ¬ ∀ r ∈ extractLoop .w64 [sampleItem "P1" "Open / -5"] [], 0 ≤ r.SpacesLeft := by
  decide

/-- C4, amended: every record `fetchData` emits has spacesLeft >= 0, provided the second
part of the description of the item it was built from does not start, behind its leading
white space, with a minus sign: the count is then a scanned integer without a minus sign,
or the default 0.  The records are paired, in feed order, with the items whose description
contains the delimiter; the condition is on the item of the record alone. -/
theorem extract_count_nonneg_without_minus (w : WordSize) (net : Fetch) (m : Metrics)
    (R : List ParkingData) (hR : (fetchData w net m).2 = some R) :
    List.Forall₂
      (fun (it : Item) (r : ParkingData) =>
        r.Name = it.Title ∧
        ((((Split it.Description delim).getD 1 []).dropWhile isSpace).head? ≠ some '-' →
          0 ≤ r.SpacesLeft))
      (net.items.filter fun it => decide (delim <:+: it.Description)) R := by
  obtain ⟨_, hRe⟩ := fetchData_some w net m R hR
  rw [extractLoop_nil_eq] at hRe
  rw [hRe]
  exact (filterMap_extractItem_rel w net.items).imp
    (fun {it r} h => ⟨extractItem_name h, fun hminus => (extractItem_nonneg h hminus).2⟩)

/-- Witness of C4: in the feed `"Open / -5"`, `"Open / 7"`, `"Open"`, `"Open / abc"` the
record of the second item and that of the fourth have counts that are not negative, the
minus sign of the first item notwithstanding. -/
theorem extract_count_nonneg_without_minus_witness :
    (fetchData .w64
      (Fetch.ok [sampleItem "A" "Open / -5", sampleItem "B" "Open / 7",
        sampleItem "C" "Open", sampleItem "D" "Open / abc"]) Metrics.startup).2 =
      some [sampleRecord "A" "Open" (-5), sampleRecord "B" "Open" 7,
        sampleRecord "D" "Open" 0] ∧
    0 ≤ (sampleRecord "B" "Open" 7).SpacesLeft ∧
    0 ≤ (sampleRecord "D" "Open" 0).SpacesLeft :=
  have h := extract_count_nonneg_without_minus .w64
    (Fetch.ok [sampleItem "A" "Open / -5", sampleItem "B" "Open / 7",
      sampleItem "C" "Open", sampleItem "D" "Open / abc"])
    Metrics.startup
    [sampleRecord "A" "Open" (-5), sampleRecord "B" "Open" 7, sampleRecord "D" "Open" 0]
    (by decide)
  have h3 : List.Forall₂
      (fun (it : Item) (r : ParkingData) =>
        r.Name = it.Title ∧
        ((((Split it.Description delim).getD 1 []).dropWhile isSpace).head? ≠ some '-' →
          0 ≤ r.SpacesLeft))
      [sampleItem "A" "Open / -5", sampleItem "B" "Open / 7", sampleItem "D" "Open / abc"]
      [sampleRecord "A" "Open" (-5), sampleRecord "B" "Open" 7, sampleRecord "D" "Open" 0] := h
  match h3 with
  | .cons _ (.cons hb (.cons hd _)) => ⟨by decide, hb.2 (by decide), hd.2 (by decide)⟩

/-- C9: when the first delimiter of a description comes right behind `P0` and the next
delimiter behind it comes right behind `P1`, the record has the status `P0` and a count
scanned from `P1` alone (0 when the scan fails); the text `rest` behind the second
delimiter has no influence. -/
theorem extract_uses_first_two_parts (w : WordSize) (net : Fetch) (m : Metrics)
    (xs ys : List Item) (item : Item) (P0 P1 rest : GoString)
    (hok : net.succeeded = true) (hitems : net.items = xs ++ item :: ys)
    (hdesc : item.Description = P0 ++ delim ++ (P1 ++ delim ++ rest))
    (h0 : ∀ i, i < P0.length → ¬ delim <+: item.Description.drop i)
    (h1 : ∀ i, i < P1.length → ¬ delim <+: (P1 ++ delim ++ rest).drop i) :
    (fetchData w net m).2 =
      some (extractLoop w xs [] ++
        { Name := item.Title, URL := item.Link, Status := P0,
          SpacesLeft := (Sscanf_d w P1).getD 0 } :: extractLoop w ys []) := by
  have hcut : cut delim item.Description = some (P0, P1 ++ delim ++ rest) := by
    rw [hdesc] at h0 ⊢
    exact cut_delim_first P0 _ h0
  have hrec := extractItem_some (w := w) hcut
  rw [secondPart_first h1] at hrec
  rw [fetchData_succeeded w net m hok, hitems, extractLoop_emit w xs ys item _ hrec]

/-- Witness of C9: `"Open / 42 / 17 / x"` gives the status `"Open"` and the count 42. -/
theorem extract_uses_first_two_parts_witness :
    (fetchData .w64 (Fetch.ok [sampleItem "P1" "Open / 42 / 17 / x"]) Metrics.startup).2 =
      some [sampleRecord "P1" "Open" 42] :=
  extract_uses_first_two_parts .w64 (Fetch.ok [sampleItem "P1" "Open / 42 / 17 / x"])
    Metrics.startup [] [] (sampleItem "P1" "Open / 42 / 17 / x") "Open".toList "42".toList
    "17 / x".toList rfl rfl rfl (by decide) (by decide)


/-! ## Publication of the records -/

/-- C5, as the claim states it, fails, in two ways.  In a cycle whose records are `(A,5)`
and `(A,7)` the lot `A` is named by the record `(A,5)`, yet its gauge is 7 after the cycle.
And the gauge is a float64: in a cycle with the single record `(B,9007199254740993)` the
gauge of `B` is 9007199254740992 after the cycle. -/
theorem publish_duplicate_lot :
    ((fetchData .w64 (Fetch.ok [sampleItem "A" "Open / 5", sampleItem "A" "Open / 7"])
        Metrics.startup).2 = some [sampleRecord "A" "Open" 5, sampleRecord "A" "Open" 7] ∧
      (updatePrometheusData .w64
        (Fetch.ok [sampleItem "A" "Open / 5", sampleItem "A" "Open / 7"])
        Metrics.startup).freeSpaces "A".toList = some 7 ∧
      ¬ ∀ r ∈ [sampleRecord "A" "Open" 5, sampleRecord "A" "Open" 7],
        (updatePrometheusData .w64
          (Fetch.ok [sampleItem "A" "Open / 5", sampleItem "A" "Open / 7"])
          Metrics.startup).freeSpaces r.Name = some r.SpacesLeft) ∧
    ((fetchData .w64 (Fetch.ok [sampleItem "B" "Open / 9007199254740993"])
        Metrics.startup).2 = some [sampleRecord "B" "Open" 9007199254740993] ∧
      (updatePrometheusData .w64 (Fetch.ok [sampleItem "B" "Open / 9007199254740993"])
        Metrics.startup).freeSpaces "B".toList = some 9007199254740992 ∧
      (updatePrometheusData .w64 (Fetch.ok [sampleItem "B" "Open / 9007199254740993"])
        Metrics.startup).freeSpaces "B".toList ≠ some 9007199254740993) := by
  decide

/-- C5, amended: after a successful cycle with the record list `R`, the gauge of each lot
named in `R` is `float64(spacesLeft)` of the last record of `R` with that name, which is
that spacesLeft itself whenever its magnitude is below `2^53`; and the gauge of every lot
not named in `R` is as it was before the cycle: present with the same value, or still
absent. -/
theorem publish_sets_named_keeps_others (w : WordSize) (net : Fetch) (m : Metrics)
    (R : List ParkingData) (hR : (fetchData w net m).2 = some R) :
    (∀ pre r post, R = pre ++ r :: post → (∀ x ∈ post, x.Name ≠ r.Name) →
      (updatePrometheusData w net m).freeSpaces r.Name = some (float64 r.SpacesLeft) ∧
      (r.SpacesLeft.natAbs < 2 ^ 53 →
        (updatePrometheusData w net m).freeSpaces r.Name = some r.SpacesLeft)) ∧
    (∀ lot, (∀ r ∈ R, r.Name ≠ lot) →
      (updatePrometheusData w net m).freeSpaces lot = m.freeSpaces lot) := by
  rw [updatePrometheusData_some w net m R hR]
  refine ⟨?_, ?_⟩
  · intro pre r post hsplit hpost
    rw [hsplit]
    have hg := publishLoop_last pre post r m.Inc hpost
    refine ⟨hg, fun hsmall => ?_⟩
    rw [hg, float64_of_small r.SpacesLeft hsmall]
  · intro lot hlot
    rw [publishLoop_other R _ lot hlot]
    rfl

/-- Witness of C5: the cycle `[(A,5),(B,0)]` followed by the cycle `[(A,7)]` leaves `B` at 0
and `A` at 7. -/
theorem publish_sets_named_keeps_others_witness :
    (runCycles .w64
      [Fetch.ok [sampleItem "A" "Open / 5", sampleItem "B" "Full / 0"],
       Fetch.ok [sampleItem "A" "Open / 7"]] Metrics.startup).freeSpaces "A".toList = some 7 ∧
    (runCycles .w64
      [Fetch.ok [sampleItem "A" "Open / 5", sampleItem "B" "Full / 0"],
       Fetch.ok [sampleItem "A" "Open / 7"]] Metrics.startup).freeSpaces "B".toList = some 0 :=
  have h := publish_sets_named_keeps_others .w64 (Fetch.ok [sampleItem "A" "Open / 7"])
    (updatePrometheusData .w64
      (Fetch.ok [sampleItem "A" "Open / 5", sampleItem "B" "Full / 0"]) Metrics.startup)
    [sampleRecord "A" "Open" 7] (by decide)
  ⟨(h.1 [] (sampleRecord "A" "Open" 7) [] rfl (by simp)).2 (by decide),
   (h.2 "B".toList (by decide)).trans (by decide)⟩

/-- C6: a cycle whose fetch goes through increases the frame counter by exactly 1, whatever
the feed holds, and after `k` such cycles from startup the frame counter is `k`. -/
theorem frameCounter_counts_successful_cycles (w : WordSize) :
    (∀ (net : Fetch) (m : Metrics), net.succeeded = true →
      (updatePrometheusData w net m).frameCounter = m.frameCounter + 1) ∧
    (∀ nets : List Fetch, (∀ net ∈ nets, net.succeeded = true) →
      (runCycles w nets Metrics.startup).frameCounter = nets.length) := by
  refine ⟨?_, ?_⟩
  · intro net m hs
    rw [updatePrometheusData_succeeded w net m hs, publishLoop_frameCounter]
    rfl
  · intro nets h
    rw [runCycles_frameCounter w nets _ h]
    simp [Metrics.startup]

/-- Witness of C6: an empty feed, a feed whose only item is skipped and a feed with one
record each count as one frame. -/
theorem frameCounter_counts_successful_cycles_witness :
    (updatePrometheusData .w64 (Fetch.ok []) Metrics.startup).frameCounter = 0 + 1 ∧
    (runCycles .w64
      [Fetch.ok [], Fetch.ok [sampleItem "A" "Open"], Fetch.ok [sampleItem "A" "Open / 7"]]
      Metrics.startup).frameCounter = 3 :=
  ⟨(frameCounter_counts_successful_cycles .w64).1 (Fetch.ok []) Metrics.startup rfl,
   (frameCounter_counts_successful_cycles .w64).2
     [Fetch.ok [], Fetch.ok [sampleItem "A" "Open"], Fetch.ok [sampleItem "A" "Open / 7"]]
     (by decide)⟩

/-- C7: a cycle in which the base URL cannot be parsed, the request cannot be built, the
network call returns an error or the body cannot be read leaves the frame counter and the
whole gauge mapping as they were. -/
theorem failed_fetch_leaves_metrics (w : WordSize) (net : Fetch) (m : Metrics)
    (h : net.parseErr = true ∨ net.requestErr = true ∨ net.transportErr = true ∨
      net.readErr = true) :
    updatePrometheusData w net m = m := by
  apply updatePrometheusData_failed
  rcases h with h | h | h | h <;> simp [Fetch.succeeded, h]

/-- Witness of C7: a transport error after a first good cycle leaves the registry of that
cycle in place. -/
theorem failed_fetch_leaves_metrics_witness :
    updatePrometheusData .w64 ⟨false, false, true, false, false, []⟩
        (updatePrometheusData .w64 (Fetch.ok [sampleItem "A" "Open / 5"]) Metrics.startup) =
      updatePrometheusData .w64 (Fetch.ok [sampleItem "A" "Open / 5"]) Metrics.startup :=
  failed_fetch_leaves_metrics .w64 ⟨false, false, true, false, false, []⟩ _
    (Or.inr (Or.inr (Or.inl rfl)))

/-- C8 does not hold of the code: a body that was read but on which `xml.Unmarshal` reports
an error is processed like any other.  With no item decoded the frame counter still goes
from 0 to 1; with one item decoded before the error its gauge is set as well. -/
theorem malformed_body_still_published :
    (updatePrometheusData .w64 ⟨false, false, false, false, true, []⟩
      Metrics.startup).frameCounter = 1 ∧
    (updatePrometheusData .w64 ⟨false, false, false, false, true, [sampleItem "A" "Open / 5"]⟩
      Metrics.startup).frameCounter = 1 ∧
    Metrics.startup.freeSpaces "A".toList = none ∧
    (updatePrometheusData .w64 ⟨false, false, false, false, true, [sampleItem "A" "Open / 5"]⟩
      Metrics.startup).freeSpaces "A".toList = some 5 := by
  decide

/-- C10, as the claim states it, fails: the gauge is a float64.  With the records `(A,5)`
and `(A,9007199254740993)` in one cycle the gauge of `A` is 9007199254740992 after the
cycle, not the spacesLeft of the last record of `A`. -/
theorem publish_last_record_rounded :
    (fetchData .w64
      (Fetch.ok [sampleItem "A" "Open / 5", sampleItem "A" "Open / 9007199254740993"])
      Metrics.startup).2 =
      some [sampleRecord "A" "Open" 5, sampleRecord "A" "Open" 9007199254740993] ∧
    (updatePrometheusData .w64
      (Fetch.ok [sampleItem "A" "Open / 5", sampleItem "A" "Open / 9007199254740993"])
      Metrics.startup).freeSpaces "A".toList = some 9007199254740992 ∧
    (updatePrometheusData .w64
      (Fetch.ok [sampleItem "A" "Open / 5", sampleItem "A" "Open / 9007199254740993"])
      Metrics.startup).freeSpaces "A".toList ≠
      some (sampleRecord "A" "Open" 9007199254740993).SpacesLeft := by
  decide

/-- C10, amended: the gauge mapping after a successful cycle is the left-to-right fold of
the point updates `lot := float64(spacesLeft)` over the record list, applied to the mapping
before the cycle; so a lot named by several records ends at `float64(spacesLeft)` of the
last of them, which is that spacesLeft itself whenever its magnitude is below `2^53`. -/
theorem publish_is_fold_last_wins (w : WordSize) (net : Fetch) (m : Metrics)
    (R : List ParkingData) (hR : (fetchData w net m).2 = some R) :
    (updatePrometheusData w net m).freeSpaces =
      R.foldl (fun (g : GoString → Option Int) (r : ParkingData) =>
        Function.update g r.Name (some (float64 r.SpacesLeft))) m.freeSpaces ∧
    (∀ pre r post, R = pre ++ r :: post → (∀ x ∈ post, x.Name ≠ r.Name) →
      (updatePrometheusData w net m).freeSpaces r.Name = some (float64 r.SpacesLeft) ∧
      (r.SpacesLeft.natAbs < 2 ^ 53 →
        (updatePrometheusData w net m).freeSpaces r.Name = some r.SpacesLeft)) := by
  rw [updatePrometheusData_some w net m R hR]
  refine ⟨?_, ?_⟩
  · rw [publishLoop_freeSpaces]; rfl
  · intro pre r post hsplit hpost
    rw [hsplit]
    have hg := publishLoop_last pre post r m.Inc hpost
    refine ⟨hg, fun hsmall => ?_⟩
    rw [hg, float64_of_small r.SpacesLeft hsmall]

/-- Witness of C10: with the records `(A,5)`, `(B,1)`, `(A,7)` in one cycle, `A` ends at 7. -/
theorem publish_is_fold_last_wins_witness :
    (updatePrometheusData .w64
      (Fetch.ok [sampleItem "A" "Open / 5", sampleItem "B" "Open / 1", sampleItem "A" "Open / 7"])
      Metrics.startup).freeSpaces "A".toList = some 7 :=
  ((publish_is_fold_last_wins .w64
    (Fetch.ok [sampleItem "A" "Open / 5", sampleItem "B" "Open / 1", sampleItem "A" "Open / 7"])
    Metrics.startup
    [sampleRecord "A" "Open" 5, sampleRecord "B" "Open" 1, sampleRecord "A" "Open" 7]
    (by decide)).2 [sampleRecord "A" "Open" 5, sampleRecord "B" "Open" 1]
      (sampleRecord "A" "Open" 7) [] rfl (by simp)).2 (by decide)

end PromHandler
